import Mathlib

/-!
Verification of the Aubio Silence Detector plugin (`src/plugins/Silence.cpp`)
against its natural-language specification.

Shallow embedding conventions:

* Audio samples are floats in the source, but the tracker itself never
  inspects or computes with a sample value: samples are only copied into
  `m_ibuf`, swapped between buffers, and handed as windows to the external
  classifier `aubio_silence_detection` (out of scope per the spec, an
  abstract pure function).  Sample values are therefore modelled by the
  opaque-but-executable type `Int`, and the classifier is a parameter
  `detect : List (List Int) → Float → Bool` (channels × window, threshold).
* A channel buffer of an `fvec_t` is modelled as a total function
  `Nat → Nat → Int` (channel → offset → value).  The function's values at
  offsets `≥ stepSize` model whatever memory lies past the allocation, so
  an out-of-bounds read is visible as a dependence on those offsets.
* `Vamp::RealTime` timestamps are modelled as `Int`, and the conversion
  `Vamp::RealTime::frame2RealTime(off, lrintf(m_inputSampleRate))` as an
  abstract parameter `f2rt : Int → Int`; the tracker only ever forms
  `timestamp + f2rt off`.
* The C++ `for` loops of the boundary refiner have no intrinsic
  termination guarantee (their step `incr` can be 0), so they are embedded
  with a fuel argument that is consumed once per loop iteration; `none`
  means the loop did not finish within the given fuel.  `process` supplies
  fuel `stepSize + 1`, which is proved sufficient for every terminating
  execution (whenever `incr ≥ 1` the loop runs at most `stepSize` steps),
  so `process … = none` exactly captures a diverging refinement loop.
* `std::cerr` diagnostics are side effects with no bearing on state or
  output and are dropped.
-/

/-- State of one `Silence` plugin instance: the members of the C++ class
(`m_channelCount`, `m_stepSize`, `m_blockSize`, `m_threshold`,
`m_prevSilent`, `m_first`, and the two `fvec_t` buffers `m_ibuf`,
`m_pbuf`, each holding per-channel sample storage). -/
structure Silence where
  m_channelCount : Nat
  m_stepSize : Nat
  m_blockSize : Nat
  m_threshold : Float
  m_prevSilent : Bool
  m_first : Bool
  m_ibuf : Nat → Nat → Int
  m_pbuf : Nat → Nat → Int

/-- The constructor `Silence::Silence`: threshold −70, `m_prevSilent`
false, `m_first` true.  Buffer pointers start null in the source; their
storage is modelled as all-zero until `initialise` replaces it. -/
def Silence.construct : Silence :=
  { m_channelCount := 0
    m_stepSize := 0
    m_blockSize := 0
    m_threshold := -70
    m_prevSilent := false
    m_first := true
    m_ibuf := fun _ _ => 0
    m_pbuf := fun _ _ => 0 }

/-- One output feature: `Feature` with `hasTimestamp = true`, a timestamp,
and a list of values (empty for the instant outputs, `[0]` or `[1]` for
the level output; the C++ values are floats but only the literals 0 and 1
are ever pushed). -/
structure Feature where
  hasTimestamp : Bool
  timestamp : Int
  values : List Nat
  deriving DecidableEq

/-- The returned `FeatureSet`, keyed in the source by output index:
0 = "silencestart", 1 = "silenceend", 2 = "silencelevel". -/
structure FeatureSet where
  silencestart : List Feature
  silenceend : List Feature
  silencelevel : List Feature
  deriving DecidableEq

/-- Lines 190–194: the copy loop `fvec_write_sample(m_ibuf,
inputBuffers[j][i], j, i)` for `i < m_stepSize`, `j < m_channelCount`.
Offsets outside the written region keep the buffer's previous content. -/
def writeBlock (old : Nat → Nat → Int) (c n : Nat)
    (input : Nat → Nat → Int) : Nat → Nat → Int :=
  fun j i => if j < c ∧ i < n then input j i else old j i

/-- A multichannel window view handed to the classifier: channel `j < c`,
offsets `[start, start + len)` of each channel's storage (the source
builds this with `m_tmpptrs[j] = buf->data[j] + start` and
`vec.length = len`). -/
def windowOf (buf : Nat → Nat → Int) (c start len : Nat) : List (List Int) :=
  (List.range c).map fun j => (List.range len).map fun k => buf j (start + k)

/-- The refiner's probe window: `vec.length = incr * 4` starting at
offset `i` of each channel (lines 211–214 and 221–223 / 234–235). -/
def probeWindow (buf : Nat → Nat → Int) (c i incr : Nat) : List (List Int) :=
  windowOf buf c i (incr * 4)

/-- Lines 208–209: `size_t incr = 16; if (incr > m_stepSize/8)
incr = m_stepSize/8;`. -/
def searchIncr (n : Nat) : Nat :=
  if 16 > n / 8 then n / 8 else 16

/-- Lines 220–230, the forward search: `for (size_t i = 0;
i < m_stepSize - incr * 4; i += incr)` probing
`aubio_silence_detection` on the `incr * 4`-sample window of the current
block starting at `i`; on `silent == subsilent` the loop breaks with
`off = i`, otherwise `off` stays 0.  `fuel` is consumed once per loop
iteration; `none` means the loop did not finish within `fuel` steps.
Note `incr * 4 ≤ m_stepSize` always holds (see
`four_mul_searchIncr_le`), so the `size_t` subtraction in the bound never
wraps and Nat subtraction is faithful. -/
def fwdLoop (detect : List (List Int) → Float → Bool) (th : Float)
    (buf : Nat → Nat → Int) (c n incr : Nat) (silent : Bool) :
    Nat → Nat → Option Int
  | 0, i =>
    if i < n - incr * 4 then
      if silent == detect (probeWindow buf c i incr) th then
        some (Int.ofNat i)
      else none
    else some 0
  | fuel + 1, i =>
    if i < n - incr * 4 then
      if silent == detect (probeWindow buf c i incr) th then
        some (Int.ofNat i)
      else fwdLoop detect th buf c n incr silent fuel (i + incr)
    else some 0

/-- Lines 232–245, the backward search over the previous block:
`for (size_t i = 0; i < m_stepSize - incr; i += incr)` probing the
`incr * 4`-sample window starting at `m_stepSize - i - incr`; on
`!subsilent` the loop breaks with `off = -(long)i`, otherwise `off`
stays 0.  Same fuel convention as `fwdLoop`; `incr ≤ m_stepSize` so the
bound's subtraction never wraps. -/
def bwdLoop (detect : List (List Int) → Float → Bool) (th : Float)
    (buf : Nat → Nat → Int) (c n incr : Nat) :
    Nat → Nat → Option Int
  | 0, i =>
    if i < n - incr then
      if !(detect (probeWindow buf c (n - i - incr) incr) th) then
        some (-(Int.ofNat i))
      else none
    else some 0
  | fuel + 1, i =>
    if i < n - incr then
      if !(detect (probeWindow buf c (n - i - incr) incr) th) then
        some (-(Int.ofNat i))
      else bwdLoop detect th buf c n incr fuel (i + incr)
    else some 0

/-- Lines 207–247, the whole refinement: `off = 0`, run the forward
search over the (already written) current block, then
`if (silent && (off == 0))` run the backward search over `m_pbuf`.
Returns the final `off`; `none` if a loop diverged. -/
def refineOff (detect : List (List Int) → Float → Bool) (th : Float)
    (ibuf pbuf : Nat → Nat → Int) (c n : Nat) (silent : Bool) : Option Int :=
  match fwdLoop detect th ibuf c n (searchIncr n) silent (n + 1) 0 with
  | none => none
  | some off =>
    if silent && (off == 0) then
      bwdLoop detect th pbuf c n (searchIncr n) (n + 1) 0
    else some off

/-- The contents of `m_ibuf` after the copy loop at the top of
`Silence::process`. -/
def writtenIbuf (st : Silence) (input : Nat → Nat → Int) : Nat → Nat → Int :=
  writeBlock st.m_ibuf st.m_channelCount st.m_stepSize input

/-- Line 196: `bool silent = aubio_silence_detection(m_ibuf,
m_threshold);` — the block-level classification of the freshly written
current block. -/
def blockSilent (detect : List (List Int) → Float → Bool)
    (st : Silence) (input : Nat → Nat → Int) : Bool :=
  detect (windowOf (writtenIbuf st input) st.m_channelCount 0 st.m_stepSize)
    st.m_threshold

/-- Lines 253–264: the features pushed on a detected change — one level
feature (values `[silent ? 0 : 1]`) into output 2, and one instant
feature (values cleared) into output 0 if silent else output 1, all at
the (possibly refined) `featureStamp`. -/
def changeFeatures (silent : Bool) (stamp : Int) : FeatureSet :=
  { silencestart :=
      if silent then [{ hasTimestamp := true, timestamp := stamp, values := [] }] else []
    silenceend :=
      if silent then [] else [{ hasTimestamp := true, timestamp := stamp, values := [] }]
    silencelevel :=
      [{ hasTimestamp := true, timestamp := stamp,
         values := [if silent then 0 else 1] }] }

/-- Lines 270–275 (together with the updates of lines 266–267 when a
change was handled): the state after a `process` call — `m_prevSilent`
and `m_first` as given, and the `m_ibuf`/`m_pbuf` data pointers
exchanged, so the just-written current block's storage becomes
`m_pbuf`. -/
def afterState (st : Silence) (input : Nat → Nat → Int)
    (prevSilent first : Bool) : Silence :=
  { st with m_prevSilent := prevSilent, m_first := first,
            m_ibuf := st.m_pbuf, m_pbuf := writtenIbuf st input }

/-- Lines 201–251: the event timestamp used for the emitted features.
Refinement runs iff `(silent && !m_first) || !silent`; when it runs the
stamp is `timestamp + frame2RealTime(off, …)`, otherwise the stamp is
the block's start `timestamp`. -/
def featureStampO (detect : List (List Int) → Float → Bool)
    (f2rt : Int → Int) (st : Silence) (input : Nat → Nat → Int)
    (t : Int) : Option Int :=
  if (blockSilent detect st input && !st.m_first)
      || !(blockSilent detect st input) then
    (refineOff detect st.m_threshold (writtenIbuf st input) st.m_pbuf
        st.m_channelCount st.m_stepSize (blockSilent detect st input)).map
      (fun off => t + f2rt off)
  else some t

/-- `Silence::process` (lines 186–278): write the block into `m_ibuf`,
classify it, on `m_first || m_prevSilent != silent` emit the level and
instant features at the (possibly refined) stamp and record the new
state, otherwise emit nothing; in every case swap the `m_ibuf`/`m_pbuf`
storage.  `none` models a diverging refinement loop (the call never
returns). -/
def Silence.process (detect : List (List Int) → Float → Bool)
    (f2rt : Int → Int) (st : Silence) (input : Nat → Nat → Int)
    (t : Int) : Option (FeatureSet × Silence) :=
  if st.m_first || (st.m_prevSilent != blockSilent detect st input) then
    match featureStampO detect f2rt st input t with
    | none => none
    | some stamp =>
      some (changeFeatures (blockSilent detect st input) stamp,
            afterState st input (blockSilent detect st input) false)
  else
    some ({ silencestart := [], silenceend := [], silencelevel := [] },
          afterState st input st.m_prevSilent st.m_first)

/-- `Silence::initialise` (lines 79–91): records the sizes and allocates
fresh buffers (`new_fvec` calloc-zeroes its storage).  It returns `true`
unconditionally (return value omitted here) and — notably — touches
neither `m_first` nor `m_prevSilent`. -/
def Silence.initialise (st : Silence) (channels stepSize blockSize : Nat) :
    Silence :=
  { st with m_channelCount := channels, m_stepSize := stepSize,
            m_blockSize := blockSize,
            m_ibuf := fun _ _ => 0, m_pbuf := fun _ _ => 0 }

/-- `Silence::reset` (lines 93–97): `m_first = true;` and nothing else. -/
def Silence.reset (st : Silence) : Silence :=
  { st with m_first := true }

/-- The parameter identifier string used by `getParameter` and
`setParameter`. -/
def thresholdKey : String :=
  "silencethreshold"

/-- `Silence::getParameter` (lines 130–138). -/
def Silence.getParameter (st : Silence) (param : String) : Float :=
  if param = thresholdKey then st.m_threshold else 0.0

/-- `Silence::setParameter` (lines 140–146). -/
def Silence.setParameter (st : Silence) (param : String) (value : Float) :
    Silence :=
  if param = thresholdKey then { st with m_threshold := value } else st

/-! ## Declarative description of the forward search (from the spec)

The specification describes the forward search as a scan over the probe
positions `i = 0, incr, 2*incr, …` strictly below `stepSize - 4*incr`,
returning the first position whose probe classification equals the
block-level classification, and 0 when no position qualifies.  These
definitions transcribe that description so it can be compared with the
loop embedded from the source. -/

/-- Number of probe positions `i, i + incr, i + 2*incr, …` strictly below
`n - incr * 4`. -/
def fwdProbeCount (n incr i : Nat) : Nat :=
  (n - incr * 4 - i + incr - 1) / incr

/-- The probe positions of the forward search from position `i` on. -/
def fwdProbesFrom (n incr i : Nat) : List Nat :=
  List.range' i (fwdProbeCount n incr i) incr

/-- Declarative forward-search offset, following the spec's words: the
first scanned position whose probe window classifies like the whole
block, defaulting to 0. -/
def fwdSpecOff (detect : List (List Int) → Float → Bool) (th : Float)
    (buf : Nat → Nat → Int) (c n incr : Nat) (silent : Bool) : Int :=
  (((fwdProbesFrom n incr 0).find? fun k =>
      silent == detect (probeWindow buf c k incr) th).map Int.ofNat).getD 0

/-! ## Concrete instances used by witnesses and counterexamples

The classifier is external (aubio's `aubio_silence_detection`); witnesses
instantiate it with an executable stand-in that calls a window silent iff
all its samples are 0, and instantiate the timestamp conversion with the
identity. -/

/-- Stand-in classifier: a window is silent iff every sample is 0. -/
def silentAllZero : List (List Int) → Float → Bool :=
  fun w _ => w.all fun ch => ch.all fun x => x == 0

/-- Stand-in frames-to-time conversion. -/
def idF2rt : Int → Int := fun off => off

/-- An all-zero (hence silent, under `silentAllZero`) input block. -/
def zeroInput : Nat → Nat → Int := fun _ _ => 0

/-- An all-ones (hence non-silent, under `silentAllZero`) input block. -/
def oneInput : Nat → Nat → Int := fun _ _ => 1

/-- A freshly constructed and initialised instance: 1 channel, step 8. -/
def c1St : Silence := Silence.initialise Silence.construct 1 8 8

/-- An instance that has already seen a non-silent block (`m_first`
false, `m_prevSilent` false). -/
def c6St : Silence := { c1St with m_first := false }

/-- An instance that has already seen a silent block (`m_first` false,
`m_prevSilent` true). -/
def c8St : Silence := { c1St with m_first := false, m_prevSilent := true }

/-- Same shape as `c8St`, used by the no-change claim. -/
def c9St : Silence := { c1St with m_first := false, m_prevSilent := true }

/-- An instance about to be re-initialised after having processed
blocks. -/
def c4St : Silence := { c1St with m_first := false, m_prevSilent := true }

/-- An instance with `m_first` cleared, for the termination witness. -/
def w2St : Silence := { c1St with m_first := false }

/-- Current-block contents for the forward-search witness: non-silent for
the first two samples, silent after. -/
def w5buf : Nat → Nat → Int := fun _ i => if i < 2 then 1 else 0

/-- Previous-block memory for the backward-search analysis: one non-zero
sample at in-block offset 20, zeroes elsewhere (also past the block's
end). -/
def c3pbufIn : Nat → Nat → Int := fun _ i => if i = 20 then 1 else 0

/-- Same in-block contents as `c3pbufIn` (offsets 0–63), but non-zero
memory at offsets 64 and beyond, i.e. past the end of a 64-sample
previous block. -/
def c3pbufJunk : Nat → Nat → Int :=
  fun _ i => if i = 20 then 1 else if 64 ≤ i then 1 else 0

/-! ## Helper lemmas -/

/-- The probe step is the minimum of 16 and an eighth of the step size. -/
theorem searchIncr_eq_min (n : Nat) : searchIncr n = min 16 (n / 8) := by
  unfold searchIncr
  rw [Nat.min_def]
  split <;> split <;> omega

/-- With a step size of at least 8 samples the probe step is positive. -/
theorem searchIncr_pos (n : Nat) (h : 8 ≤ n) : 1 ≤ searchIncr n := by
  unfold searchIncr
  split <;> omega

/-- Four probe steps never exceed the step size, so the `size_t` loop
bounds `m_stepSize - incr * 4` and `m_stepSize - incr` never wrap. -/
theorem four_mul_searchIncr_le (n : Nat) : 4 * searchIncr n ≤ n := by
  unfold searchIncr
  split <;> omega

/-- With a positive step the forward loop finishes within fuel covering
the remaining distance to the bound. -/
theorem fwdLoop_isSome (detect : List (List Int) → Float → Bool)
    (th : Float) (buf : Nat → Nat → Int) (c n incr : Nat) (silent : Bool)
    (hincr : 1 ≤ incr) :
    ∀ fuel i, n - incr * 4 ≤ i + fuel →
      (fwdLoop detect th buf c n incr silent fuel i).isSome = true := by
  intro fuel
  induction fuel with
  | zero =>
    intro i h
    simp only [fwdLoop]
    rw [if_neg (by omega)]
    rfl
  | succ fuel ih =>
    intro i h
    simp only [fwdLoop]
    by_cases hc : i < n - incr * 4
    · rw [if_pos hc]
      by_cases hb : (silent == detect (probeWindow buf c i incr) th) = true
      · rw [if_pos hb]; rfl
      · rw [if_neg hb]; exact ih (i + incr) (by omega)
    · rw [if_neg hc]; rfl

/-- With a positive step the backward loop finishes within fuel covering
the remaining distance to the bound. -/
theorem bwdLoop_isSome (detect : List (List Int) → Float → Bool)
    (th : Float) (buf : Nat → Nat → Int) (c n incr : Nat)
    (hincr : 1 ≤ incr) :
    ∀ fuel i, n - incr ≤ i + fuel →
      (bwdLoop detect th buf c n incr fuel i).isSome = true := by
  intro fuel
  induction fuel with
  | zero =>
    intro i h
    simp only [bwdLoop]
    rw [if_neg (by omega)]
    rfl
  | succ fuel ih =>
    intro i h
    simp only [bwdLoop]
    by_cases hc : i < n - incr
    · rw [if_pos hc]
      by_cases hb : (!(detect (probeWindow buf c (n - i - incr) incr) th)) = true
      · rw [if_pos hb]; rfl
      · rw [if_neg hb]; exact ih (i + incr) (by omega)
    · rw [if_neg hc]; rfl

/-- With step 0 and a first probe that does not break the loop, the
forward search never finishes, whatever the fuel: the source loop
`for (i = 0; i < stepSize; i += 0)` never advances. -/
theorem fwdLoop_diverges_incr_zero (detect : List (List Int) → Float → Bool)
    (th : Float) (buf : Nat → Nat → Int) (c n : Nat) (silent : Bool)
    (hn : 1 ≤ n)
    (hmismatch : (silent == detect (probeWindow buf c 0 0) th) = false) :
    ∀ fuel, fwdLoop detect th buf c n 0 silent fuel 0 = none := by
  intro fuel
  induction fuel with
  | zero =>
    simp only [fwdLoop]
    rw [if_pos (by omega), if_neg (by simp [hmismatch])]
  | succ fuel ih =>
    simp only [fwdLoop]
    rw [if_pos (by omega), if_neg (by simp [hmismatch])]
    exact ih

/-- Past the loop bound there are no probe positions left. -/
theorem fwdProbeCount_zero (n incr i : Nat) (hincr : 1 ≤ incr)
    (h : n - incr * 4 ≤ i) : fwdProbeCount n incr i = 0 := by
  unfold fwdProbeCount
  have e : n - incr * 4 - i = 0 := by omega
  rw [e]
  exact Nat.div_eq_of_lt (by omega)

/-- Inside the loop bound, advancing by one step drops exactly one probe
position. -/
theorem fwdProbeCount_succ (n incr i : Nat) (hincr : 1 ≤ incr)
    (h : i < n - incr * 4) :
    fwdProbeCount n incr i = fwdProbeCount n incr (i + incr) + 1 := by
  unfold fwdProbeCount
  rcases Nat.lt_or_ge (n - incr * 4) (i + incr + 1) with hA | hB
  · have e1 : n - incr * 4 - (i + incr) = 0 := by omega
    have e2 : n - incr * 4 - i + incr - 1 = n - incr * 4 - i - 1 + incr := by
      omega
    rw [e1, e2, Nat.add_div_right _ (by omega)]
    have e3 : (n - incr * 4 - i - 1) / incr = 0 := Nat.div_eq_of_lt (by omega)
    have e4 : (0 + incr - 1) / incr = 0 := Nat.div_eq_of_lt (by omega)
    omega
  · have e2 : n - incr * 4 - i + incr - 1 =
        n - incr * 4 - i - incr - 1 + incr + incr := by omega
    have e5 : n - incr * 4 - (i + incr) + incr - 1 =
        n - incr * 4 - i - incr - 1 + incr := by omega
    rw [e2, e5, Nat.add_div_right _ (by omega)]

/-- Unfolding the probe-position list one step inside the bound. -/
theorem fwdProbesFrom_cons (n incr i : Nat) (hincr : 1 ≤ incr)
    (h : i < n - incr * 4) :
    fwdProbesFrom n incr i = i :: fwdProbesFrom n incr (i + incr) := by
  unfold fwdProbesFrom
  rw [fwdProbeCount_succ n incr i hincr h]
  rfl

/-- The probe-position list is empty past the bound. -/
theorem fwdProbesFrom_nil (n incr i : Nat) (hincr : 1 ≤ incr)
    (h : n - incr * 4 ≤ i) : fwdProbesFrom n incr i = [] := by
  unfold fwdProbesFrom
  rw [fwdProbeCount_zero n incr i hincr h]
  rfl

/-- The embedded forward loop computes exactly the declarative
first-match-or-zero description, for a positive step and enough fuel. -/
theorem fwdLoop_eq_find (detect : List (List Int) → Float → Bool)
    (th : Float) (buf : Nat → Nat → Int) (c n incr : Nat) (silent : Bool)
    (hincr : 1 ≤ incr) :
    ∀ fuel i, n - incr * 4 ≤ i + fuel →
      fwdLoop detect th buf c n incr silent fuel i =
        some ((((fwdProbesFrom n incr i).find? fun k =>
            silent == detect (probeWindow buf c k incr) th).map
          Int.ofNat).getD 0) := by
  intro fuel
  induction fuel with
  | zero =>
    intro i h
    simp only [fwdLoop]
    rw [if_neg (by omega), fwdProbesFrom_nil n incr i hincr (by omega)]
    rfl
  | succ fuel ih =>
    intro i h
    simp only [fwdLoop]
    by_cases hc : i < n - incr * 4
    · rw [if_pos hc, fwdProbesFrom_cons n incr i hincr hc]
      by_cases hb : (silent == detect (probeWindow buf c i incr) th) = true
      · rw [if_pos hb]
        simp only [List.find?, hb]
        rfl
      · rw [if_neg hb]
        rw [Bool.not_eq_true] at hb
        simp only [List.find?, hb]
        exact ih (i + incr) (by omega)
    · rw [if_neg hc, fwdProbesFrom_nil n incr i hincr (by omega)]
      rfl

/-- The refinement terminates when the step size is 0 (the loops never
start) or at least 8 (the probe step is positive). -/
theorem refineOff_isSome (detect : List (List Int) → Float → Bool)
    (th : Float) (ibuf pbuf : Nat → Nat → Int) (c n : Nat) (silent : Bool)
    (h : n = 0 ∨ 8 ≤ n) :
    (refineOff detect th ibuf pbuf c n silent).isSome = true := by
  rcases h with h0 | h8
  · subst h0
    unfold refineOff
    cases silent <;> rfl
  · have hincr : 1 ≤ searchIncr n := searchIncr_pos n h8
    have hf := fwdLoop_isSome detect th ibuf c n (searchIncr n) silent hincr
      (n + 1) 0 (by omega)
    rcases Option.isSome_iff_exists.mp hf with ⟨off, hoff⟩
    have hre : refineOff detect th ibuf pbuf c n silent =
        if (silent && (off == 0)) = true then
          bwdLoop detect th pbuf c n (searchIncr n) (n + 1) 0
        else some off := by
      unfold refineOff
      rw [hoff]
    rw [hre]
    by_cases hb : (silent && (off == 0)) = true
    · rw [if_pos hb]
      exact bwdLoop_isSome detect th pbuf c n (searchIncr n) hincr
        (n + 1) 0 (by omega)
    · rw [if_neg hb]
      rfl

/-- The level output always receives exactly one feature on a change. -/
theorem changeFeatures_level_length (b : Bool) (s : Int) :
    (changeFeatures b s).silencelevel.length = 1 := rfl

/-- The level feature always carries the event stamp. -/
theorem changeFeatures_level_timestamp (b : Bool) (s : Int) :
    (changeFeatures b s).silencelevel.map Feature.timestamp = [s] := rfl

/-- Reading the written region of `m_ibuf` back gives exactly the input
block. -/
theorem windowOf_writtenIbuf (st : Silence) (input : Nat → Nat → Int) :
    windowOf (writtenIbuf st input) st.m_channelCount 0 st.m_stepSize =
      windowOf input st.m_channelCount 0 st.m_stepSize := by
  unfold windowOf writtenIbuf writeBlock
  refine List.map_congr_left fun j hj => ?_
  refine List.map_congr_left fun k hk => ?_
  have hj' := List.mem_range.mp hj
  have hk' := List.mem_range.mp hk
  rw [if_pos ⟨hj', by omega⟩]

/-- Destructor for a completed `process` call that took the change
branch: the output and the new state have the shapes built at lines
253–267, with the stamp produced by `featureStampO`. -/
theorem process_change_inv (detect : List (List Int) → Float → Bool)
    (f2rt : Int → Int) (st : Silence) (input : Nat → Nat → Int) (t : Int)
    (fs : FeatureSet) (st' : Silence)
    (hch : (st.m_first || (st.m_prevSilent != blockSilent detect st input)) = true)
    (hp : Silence.process detect f2rt st input t = some (fs, st')) :
    ∃ stamp, featureStampO detect f2rt st input t = some stamp ∧
      fs = changeFeatures (blockSilent detect st input) stamp ∧
      st' = afterState st input (blockSilent detect st input) false := by
  unfold Silence.process at hp
  rw [hch, if_pos rfl] at hp
  rcases hm : featureStampO detect f2rt st input t with _ | stamp
  · rw [hm] at hp
    exact Option.noConfusion hp
  · rw [hm] at hp
    have hp' : some (changeFeatures (blockSilent detect st input) stamp,
        afterState st input (blockSilent detect st input) false) =
        some (fs, st') := hp
    injection hp' with hpair
    injection hpair with hfs hst
    exact ⟨stamp, rfl, hfs.symm, hst.symm⟩

/-- Whatever branch a completed `process` call takes, the returned state
swaps the buffer storage: old `m_pbuf` storage becomes `m_ibuf`, and the
written current block becomes `m_pbuf`. -/
theorem process_state_shape (detect : List (List Int) → Float → Bool)
    (f2rt : Int → Int) (st : Silence) (input : Nat → Nat → Int) (t : Int)
    (fs : FeatureSet) (st' : Silence)
    (hp : Silence.process detect f2rt st input t = some (fs, st')) :
    st'.m_ibuf = st.m_pbuf ∧ st'.m_pbuf = writtenIbuf st input := by
  unfold Silence.process at hp
  by_cases hch : (st.m_first || (st.m_prevSilent != blockSilent detect st input)) = true
  · rw [hch, if_pos rfl] at hp
    rcases hm : featureStampO detect f2rt st input t with _ | stamp
    · rw [hm] at hp
      exact Option.noConfusion hp
    · rw [hm] at hp
      have hp' : some (changeFeatures (blockSilent detect st input) stamp,
          afterState st input (blockSilent detect st input) false) =
          some (fs, st') := hp
      injection hp' with hpair
      injection hpair with hfs hst
      rw [← hst]
      exact ⟨rfl, rfl⟩
  · rw [Bool.not_eq_true] at hch
    rw [hch, if_neg (by simp)] at hp
    have hp' : some ((⟨[], [], []⟩ : FeatureSet),
        afterState st input st.m_prevSilent st.m_first) =
        some (fs, st') := hp
    injection hp' with hpair
    injection hpair with hfs hst
    rw [← hst]
    exact ⟨rfl, rfl⟩

/-! ## Claim C1 -/

/-- Claim C1, counterexample: on the very first block after construction
and initialisation (here a silent one), `process` emits one Level Signal
sample AND one `SilenceStart` instant — not zero Transition Events as
the claim states.  The emission at lines 260–264 is not guarded by
`m_first`. -/
theorem first_block_emits_transition :
    (Silence.process silentAllZero idF2rt c1St zeroInput 0).map
        (fun p => (p.1.silencestart.length, p.1.silenceend.length,
          p.1.silencelevel.length)) =
      some (1, 0, 1) := rfl

/-- Claim C1 as amended: the first processed block emits exactly one
Level Signal sample and exactly one Transition Event (`SilenceStart` if
the block is silent, `SilenceEnd` otherwise); when the block is silent
both carry the block's start timestamp, and when it is non-silent both
carry the refined timestamp `t + f2rt off` with `off` produced by the
refinement. -/
theorem process_first_block_events (detect : List (List Int) → Float → Bool)
    (f2rt : Int → Int) (st : Silence) (input : Nat → Nat → Int) (t : Int)
    (fs : FeatureSet) (st' : Silence)
    (hfirst : st.m_first = true)
    (hp : Silence.process detect f2rt st input t = some (fs, st')) :
    fs.silencelevel.length = 1 ∧
    (blockSilent detect st input = true →
      fs.silencestart = [{ hasTimestamp := true, timestamp := t, values := [] }]
        ∧ fs.silenceend = []
        ∧ fs.silencelevel = [{ hasTimestamp := true, timestamp := t, values := [0] }]) ∧
    (blockSilent detect st input = false →
      fs.silencestart = [] ∧
      ∃ off, refineOff detect st.m_threshold (writtenIbuf st input) st.m_pbuf
          st.m_channelCount st.m_stepSize (blockSilent detect st input) = some off ∧
        fs.silenceend = [{ hasTimestamp := true, timestamp := t + f2rt off, values := [] }] ∧
        fs.silencelevel = [{ hasTimestamp := true, timestamp := t + f2rt off, values := [1] }]) := by
  have hch : (st.m_first || (st.m_prevSilent != blockSilent detect st input)) = true := by
    rw [hfirst]
    rfl
  obtain ⟨stamp, hstamp, hfs, hst⟩ :=
    process_change_inv detect f2rt st input t fs st' hch hp
  refine ⟨by rw [hfs]; exact changeFeatures_level_length _ _, ?_, ?_⟩
  · intro hsil
    have hcond : ((blockSilent detect st input && !st.m_first)
        || !(blockSilent detect st input)) = false := by
      rw [hfirst, hsil]
      rfl
    unfold featureStampO at hstamp
    rw [hcond, if_neg (by simp)] at hstamp
    have ht : stamp = t := (Option.some.inj hstamp).symm
    subst ht
    rw [hfs, hsil]
    exact ⟨rfl, rfl, rfl⟩
  · intro hsil
    have hcond : ((blockSilent detect st input && !st.m_first)
        || !(blockSilent detect st input)) = true := by
      rw [hfirst, hsil]
      rfl
    unfold featureStampO at hstamp
    rw [hcond, if_pos rfl] at hstamp
    rcases Option.map_eq_some'.mp hstamp with ⟨off, hoff, hval⟩
    refine ⟨by rw [hfs, hsil]; rfl, off, hoff, ?_, ?_⟩
    · rw [hfs, hsil, ← hval]
      rfl
    · rw [hfs, hsil, ← hval]
      rfl

/-- Claim C1 witness: the amended theorem applied to a concrete silent
first block. -/
theorem process_first_block_events_witness :
    c1St.m_first = true ∧
    ((changeFeatures true 0).silencelevel.length = 1 ∧
      (blockSilent silentAllZero c1St zeroInput = true →
        (changeFeatures true 0).silencestart = [{ hasTimestamp := true, timestamp := 0, values := [] }]
          ∧ (changeFeatures true 0).silenceend = []
          ∧ (changeFeatures true 0).silencelevel = [{ hasTimestamp := true, timestamp := 0, values := [0] }]) ∧
      (blockSilent silentAllZero c1St zeroInput = false →
        (changeFeatures true 0).silencestart = [] ∧
        ∃ off, refineOff silentAllZero c1St.m_threshold
            (writtenIbuf c1St zeroInput) c1St.m_pbuf c1St.m_channelCount
            c1St.m_stepSize (blockSilent silentAllZero c1St zeroInput) = some off ∧
          (changeFeatures true 0).silenceend = [{ hasTimestamp := true, timestamp := 0 + idF2rt off, values := [] }] ∧
          (changeFeatures true 0).silencelevel = [{ hasTimestamp := true, timestamp := 0 + idF2rt off, values := [1] }])) :=
  ⟨rfl, process_first_block_events silentAllZero idF2rt c1St zeroInput 0 _ _
    rfl rfl⟩

/-! ## Claim C2 -/

/-- Claim C2, counterexample: with an initialised configuration of
`stepSize = 4` (so `incr = min(16, 4/8) = 0`) and a first block that
classifies non-silent, the forward search's first probe (an empty
window, silent under this classifier) does not break the loop and
`i += incr` never advances: `process` never returns.  The searches do
not short-circuit to `off = 0` — they scan forever. -/
theorem process_diverges_small_step :
    Silence.process silentAllZero idF2rt
      (Silence.initialise Silence.construct 1 4 4) oneInput 0 = none := rfl

/-- Claim C2 as amended: the loop bounds never wrap (`4 * incr ≤
stepSize` always), and `process` terminates for every initialised
configuration whose step size is 0 or at least 8; for step sizes 1–7 the
computed `incr` clamps to 0 and the refinement loops cannot advance (see
`fwdLoop_diverges_incr_zero` and the counterexample). -/
theorem process_terminates_normal_config
    (detect : List (List Int) → Float → Bool) (f2rt : Int → Int)
    (st : Silence) (input : Nat → Nat → Int) (t : Int)
    (h : st.m_stepSize = 0 ∨ 8 ≤ st.m_stepSize) :
    4 * searchIncr st.m_stepSize ≤ st.m_stepSize ∧
    (Silence.process detect f2rt st input t).isSome = true := by
  refine ⟨four_mul_searchIncr_le st.m_stepSize, ?_⟩
  unfold Silence.process
  by_cases hch : (st.m_first || (st.m_prevSilent != blockSilent detect st input)) = true
  · rw [hch, if_pos rfl]
    have hs : (featureStampO detect f2rt st input t).isSome = true := by
      unfold featureStampO
      by_cases hg : ((blockSilent detect st input && !st.m_first)
          || !(blockSilent detect st input)) = true
      · rw [hg, if_pos rfl, Option.isSome_map']
        exact refineOff_isSome detect st.m_threshold (writtenIbuf st input)
          st.m_pbuf st.m_channelCount st.m_stepSize
          (blockSilent detect st input) h
      · rw [Bool.not_eq_true] at hg
        rw [hg, if_neg (by simp)]
        rfl
    rcases Option.isSome_iff_exists.mp hs with ⟨stamp, hstamp⟩
    rw [hstamp]
    rfl
  · rw [Bool.not_eq_true] at hch
    rw [hch, if_neg (by simp)]
    rfl

/-- Claim C2 witness: the amended theorem applied to a step-8
configuration. -/
theorem process_terminates_normal_config_witness :
    (w2St.m_stepSize = 0 ∨ 8 ≤ w2St.m_stepSize) ∧
    (4 * searchIncr w2St.m_stepSize ≤ w2St.m_stepSize ∧
      (Silence.process silentAllZero idF2rt w2St zeroInput 0).isSome = true) :=
  ⟨Or.inr (by decide),
    process_terminates_normal_config silentAllZero idF2rt w2St zeroInput 0
      (Or.inr (by decide))⟩

/-! ## Claim C3 -/

/-- Claim C3: the backward probe at offset `i` starts at
`m_stepSize - i - incr` with length `incr * 4`, so it extends
`3 * incr - i` samples past the end of the previous block whenever
`i < 3 * incr` — it is not a sub-window of the previous block ending `i`
samples before its end.  Witnessed here at `stepSize = 64`
(`incr = 8`, fuel as supplied by `process`): two previous-block memories
that agree on every in-block offset 0–63 but differ past offset 63 make
the backward search return different offsets (`-40` versus `0`), because
the very first probe reads offsets 56–87 of a 64-sample buffer. -/
theorem backward_probe_reads_past_block :
    ((List.range 64).all fun i => c3pbufIn 0 i == c3pbufJunk 0 i) = true ∧
    bwdLoop silentAllZero (-70) c3pbufIn 1 64 8 65 0 = some (-40) ∧
    bwdLoop silentAllZero (-70) c3pbufJunk 1 64 8 65 0 = some 0 :=
  ⟨by decide, rfl, rfl⟩

/-! ## Claim C4 -/

/-- Claim C4, counterexample: re-initialising an instance that has
already processed blocks leaves `m_first = false` (initialise does not
touch the Classification State), and the next processed block is then
treated as a continuation — here a silent block matching
`m_prevSilent = true` emits nothing, whereas a first block always emits
a level sample. -/
theorem reinit_not_first_block :
    (Silence.initialise c4St 1 8 8).m_first = false ∧
    (Silence.process silentAllZero idF2rt (Silence.initialise c4St 1 8 8)
        zeroInput 0).map
      (fun p => (p.1.silencestart.length, p.1.silenceend.length,
        p.1.silencelevel.length)) = some (0, 0, 0) :=
  ⟨rfl, rfl⟩

/-- Claim C4 as amended: `initialise` records the new sizes and installs
fresh zeroed buffers, but preserves the Classification State
(`m_first`, `m_prevSilent`) and the threshold; only `reset` (and
construction) return the tracker to the "first block" state. -/
theorem initialise_preserves_classification_state (st : Silence)
    (c n b : Nat) :
    (Silence.initialise st c n b).m_first = st.m_first ∧
    (Silence.initialise st c n b).m_prevSilent = st.m_prevSilent ∧
    (Silence.initialise st c n b).m_threshold = st.m_threshold ∧
    (Silence.initialise st c n b).m_channelCount = c ∧
    (Silence.initialise st c n b).m_stepSize = n ∧
    (Silence.initialise st c n b).m_blockSize = b ∧
    (Silence.initialise st c n b).m_ibuf = (fun _ _ => 0) ∧
    (Silence.initialise st c n b).m_pbuf = (fun _ _ => 0) ∧
    (Silence.reset st).m_first = true :=
  ⟨rfl, rfl, rfl, rfl, rfl, rfl, rfl, rfl, rfl⟩

/-! ## Claim C5 -/

/-- Claim C5, counterexample: at `stepSize = 4` the computed `incr` is 0;
on a detected change to non-silent where refinement runs, the forward
search (fuel as supplied by `process`) scans forever over the same empty
probe window instead of stopping or leaving `off = 0`. -/
theorem forward_search_diverges_incr_zero :
    fwdLoop silentAllZero (-70) (fun _ _ => (1 : Int)) 1 4 (searchIncr 4)
      false 5 0 = none := rfl

/-- Claim C5 as amended: provided `stepSize ≥ 8` (so that
`incr = min(16, stepSize/8) ≥ 1`), the forward search as invoked by the
refinement scans positions `0, incr, 2*incr, …` strictly below
`stepSize - 4*incr`, classifies the `4*incr`-sample sub-window at each,
returns the first position whose sub-window classification equals the
block-level classification, and returns 0 when no scanned position
qualifies. -/
theorem forward_search_finds_first_match
    (detect : List (List Int) → Float → Bool) (th : Float)
    (buf : Nat → Nat → Int) (c n : Nat) (silent : Bool) (h : 8 ≤ n) :
    fwdLoop detect th buf c n (searchIncr n) silent (n + 1) 0 =
      some (fwdSpecOff detect th buf c n (searchIncr n) silent) := by
  have hincr := searchIncr_pos n h
  unfold fwdSpecOff
  exact fwdLoop_eq_find detect th buf c n (searchIncr n) silent hincr
    (n + 1) 0 (by omega)

/-- Claim C5 witness: the amended theorem on a concrete step-8 block
whose first silent probe position is 2, plus the evaluation of the
declarative offset there. -/
theorem forward_search_finds_first_match_witness :
    8 ≤ 8 ∧
    (fwdLoop silentAllZero (-70) w5buf 1 8 (searchIncr 8) true 9 0 =
      some (fwdSpecOff silentAllZero (-70) w5buf 1 8 (searchIncr 8) true)) ∧
    fwdSpecOff silentAllZero (-70) w5buf 1 8 (searchIncr 8) true = 2 :=
  ⟨by omega,
    forward_search_finds_first_match silentAllZero (-70) w5buf 1 8 true
      (by omega),
    by decide⟩

/-! ## Claim C6 -/

/-- Claim C6: on a first call or detected change, refinement is invoked
iff not (first call and silent): when `m_first && silent` the emitted
features carry the block's start timestamp unchanged, and otherwise the
stamp is `t + f2rt off` for the `off` computed by the refinement (the
guard `(silent && !m_first) || !silent` is the negation of
`m_first && silent`). -/
theorem refine_condition_and_stamp
    (detect : List (List Int) → Float → Bool) (f2rt : Int → Int)
    (st : Silence) (input : Nat → Nat → Int) (t : Int)
    (fs : FeatureSet) (st' : Silence)
    (hch : (st.m_first || (st.m_prevSilent != blockSilent detect st input)) = true)
    (hp : Silence.process detect f2rt st input t = some (fs, st')) :
    ((st.m_first && blockSilent detect st input) = true →
      fs.silencelevel.map Feature.timestamp = [t]) ∧
    ((st.m_first && blockSilent detect st input) = false →
      ∃ off, refineOff detect st.m_threshold (writtenIbuf st input) st.m_pbuf
          st.m_channelCount st.m_stepSize (blockSilent detect st input) = some off ∧
        fs.silencelevel.map Feature.timestamp = [t + f2rt off]) := by
  obtain ⟨stamp, hstamp, hfs, hst⟩ :=
    process_change_inv detect f2rt st input t fs st' hch hp
  constructor
  · intro hb
    have hcond : ((blockSilent detect st input && !st.m_first)
        || !(blockSilent detect st input)) = false := by
      cases hf : st.m_first <;> cases hs : blockSilent detect st input <;>
        simp_all
    unfold featureStampO at hstamp
    rw [hcond, if_neg (by simp)] at hstamp
    have ht : stamp = t := (Option.some.inj hstamp).symm
    subst ht
    rw [hfs]
    exact changeFeatures_level_timestamp _ _
  · intro hb
    have hcond : ((blockSilent detect st input && !st.m_first)
        || !(blockSilent detect st input)) = true := by
      rcases hf : st.m_first <;> rcases hs : blockSilent detect st input <;>
        simp_all
    unfold featureStampO at hstamp
    rw [hcond, if_pos rfl] at hstamp
    rcases Option.map_eq_some'.mp hstamp with ⟨off, hoff, hval⟩
    refine ⟨off, hoff, ?_⟩
    rw [hfs, ← hval]
    exact changeFeatures_level_timestamp _ _

/-- Claim C6 witness: a non-first silent-transition block at `t = 5`
with refinement offset 0. -/
theorem refine_condition_and_stamp_witness :
    (c6St.m_first || (c6St.m_prevSilent != blockSilent silentAllZero c6St zeroInput)) = true ∧
    (((c6St.m_first && blockSilent silentAllZero c6St zeroInput) = true →
      (changeFeatures true 5).silencelevel.map Feature.timestamp = [5]) ∧
    ((c6St.m_first && blockSilent silentAllZero c6St zeroInput) = false →
      ∃ off, refineOff silentAllZero c6St.m_threshold
          (writtenIbuf c6St zeroInput) c6St.m_pbuf c6St.m_channelCount
          c6St.m_stepSize (blockSilent silentAllZero c6St zeroInput) = some off ∧
        (changeFeatures true 5).silencelevel.map Feature.timestamp =
          [5 + idF2rt off])) :=
  ⟨rfl, refine_condition_and_stamp silentAllZero idF2rt c6St zeroInput 5 _ _
    rfl rfl⟩

/-! ## Claim C7 -/

/-- Claim C7: the refiner's step is `incr = min(16, stepSize / 8)`
(integer division), and every probe window handed to the classifier —
the forward and backward searches both probe through `probeWindow` —
has exactly `4 * incr` samples per channel (and one entry per
channel). -/
theorem search_granularity (n : Nat) (buf : Nat → Nat → Int)
    (c s incr : Nat) :
    searchIncr n = min 16 (n / 8) ∧
    (probeWindow buf c s incr).length = c ∧
    ((probeWindow buf c s incr).all fun ch => ch.length == 4 * incr) = true := by
  refine ⟨searchIncr_eq_min n, ?_, ?_⟩
  · simp [probeWindow, windowOf]
  · simp only [probeWindow, windowOf, List.all_eq_true, List.mem_map]
    rintro ch ⟨j, hj, rfl⟩
    simp [Nat.mul_comm]

/-! ## Claim C8 -/

/-- Claim C8: after every completed `process` call — change or not — the
previous-block buffer holds exactly the samples of the block just
processed, and the update exchanges the two buffers' storage:
`m_ibuf` and `m_pbuf` swap data (lines 270–275), no copy. -/
theorem process_retains_block_in_pbuf
    (detect : List (List Int) → Float → Bool) (f2rt : Int → Int)
    (st : Silence) (input : Nat → Nat → Int) (t : Int)
    (fs : FeatureSet) (st' : Silence)
    (hp : Silence.process detect f2rt st input t = some (fs, st')) :
    st'.m_ibuf = st.m_pbuf ∧
    windowOf st'.m_pbuf st.m_channelCount 0 st.m_stepSize =
      windowOf input st.m_channelCount 0 st.m_stepSize := by
  obtain ⟨h1, h2⟩ := process_state_shape detect f2rt st input t fs st' hp
  refine ⟨h1, ?_⟩
  rw [h2]
  exact windowOf_writtenIbuf st input

/-- Claim C8 witness: a no-change call on a concrete instance; the new
`m_ibuf` is the old `m_pbuf` storage and the new `m_pbuf` reads back the
input block. -/
theorem process_retains_block_in_pbuf_witness :
    (afterState c8St zeroInput c8St.m_prevSilent c8St.m_first).m_ibuf = c8St.m_pbuf ∧
    windowOf (afterState c8St zeroInput c8St.m_prevSilent c8St.m_first).m_pbuf
        c8St.m_channelCount 0 c8St.m_stepSize =
      windowOf zeroInput c8St.m_channelCount 0 c8St.m_stepSize :=
  process_retains_block_in_pbuf silentAllZero idF2rt c8St zeroInput 0 _ _ rfl

/-! ## Claim C9 -/

/-- Claim C9: a non-first block whose classification equals
`m_prevSilent` produces an empty feature set (and still swaps the
buffers). -/
theorem no_change_emits_nothing
    (detect : List (List Int) → Float → Bool) (f2rt : Int → Int)
    (st : Silence) (input : Nat → Nat → Int) (t : Int)
    (hfirst : st.m_first = false)
    (hsame : blockSilent detect st input = st.m_prevSilent) :
    Silence.process detect f2rt st input t =
      some (⟨[], [], []⟩, afterState st input st.m_prevSilent st.m_first) := by
  unfold Silence.process
  rw [hfirst, hsame]
  simp

/-- Claim C9 witness: a silent block following a silent block emits
nothing. -/
theorem no_change_emits_nothing_witness :
    c9St.m_first = false ∧
    blockSilent silentAllZero c9St zeroInput = c9St.m_prevSilent ∧
    Silence.process silentAllZero idF2rt c9St zeroInput 7 =
      some (⟨[], [], []⟩, afterState c9St zeroInput c9St.m_prevSilent c9St.m_first) :=
  ⟨rfl, rfl,
    no_change_emits_nothing silentAllZero idF2rt c9St zeroInput 7 rfl rfl⟩

/-! ## Claim C10 -/

/-- Claim C10: `setParameter` with any name other than
"silencethreshold" leaves the whole state unchanged and `getParameter`
returns 0.0 for such names; `setParameter("silencethreshold", v)` stores
`v` verbatim — no clamping or validation against the declared
range [−120, 0] — and `getParameter` reads it back. -/
theorem parameter_access (st : Silence) (p : String) (v : Float)
    (hp : p ≠ thresholdKey) :
    Silence.setParameter st p v = st ∧
    Silence.getParameter st p = 0.0 ∧
    Silence.setParameter st thresholdKey v = { st with m_threshold := v } ∧
    Silence.getParameter { st with m_threshold := v } thresholdKey = v := by
  refine ⟨?_, ?_, ?_, ?_⟩
  · unfold Silence.setParameter
    rw [if_neg hp]
  · unfold Silence.getParameter
    rw [if_neg hp]
  · unfold Silence.setParameter
    rw [if_pos rfl]
  · unfold Silence.getParameter
    rw [if_pos rfl]

/-- A parameter name that is not the threshold identifier. -/
def otherKey : String :=
  "anotherparam"

/-- Claim C10 witness: the parameter name "anotherparam" is ignored, and
an out-of-range threshold value 5 is stored verbatim. -/
theorem parameter_access_witness :
    otherKey ≠ thresholdKey ∧
    (Silence.setParameter Silence.construct otherKey 5 = Silence.construct ∧
      Silence.getParameter Silence.construct otherKey = 0.0 ∧
      Silence.setParameter Silence.construct thresholdKey 5 =
        { Silence.construct with m_threshold := 5 } ∧
      Silence.getParameter { Silence.construct with m_threshold := 5 }
        thresholdKey = 5) :=
  ⟨by decide, parameter_access Silence.construct otherKey 5 (by decide)⟩
